import Mathlib

/-
  Verification of the request-routing core of caddy-gcs-proxy
  (src/gcsproxy.go), an HTTP-to-object-storage gateway.

  The Go code is shallowly embedded: strings are modelled as lists of
  characters (the code only manipulates ASCII path and header bytes, where
  Go byte indexing and rune decoding coincide), the GCS client is an
  abstract store (its capability interface: fetch, conditional fetch,
  write, delete), and each handler is a pure function from the request
  data and the store to an outcome together with the list of store
  operations it performs.
-/

namespace CaddyGcsProxy

/-! ### Go standard library: strings.Split(s, "/") and path.Clean / path.Join

The proxy resolves keys with path.Join (gcsproxy.go, joinPath and the
index-candidate loop).  path.Clean is embedded in its component
formulation: split on the separator, then process components with a
stack (empty and "." components are dropped, ".." pops a non-".." top,
".." at the root of a rooted path is dropped, leading ".." components of
a relative path accumulate). -/

/-- Go strings.Split on the path separator: splits a character list at
every slash; the empty list splits to one empty component. -/
def splitSlash : List Char → List (List Char)
  | [] => [[]]
  | c :: rest =>
    if c = '/' then [] :: splitSlash rest
    else (c :: (splitSlash rest).headD []) :: (splitSlash rest).tail

/-- Joins components with a slash between consecutive components
(inverse of splitSlash on slash-free components). -/
def joinSlash : List (List Char) → List Char
  | [] => []
  | [c] => c
  | c :: cs => c ++ '/' :: joinSlash cs

/-- One component step of Go path.Clean: empty and "." components are
dropped; ".." pops the last real component, is dropped at the root of a
rooted path, and accumulates at the front of a relative path; any other
component is pushed. -/
def cleanStep (rooted : Bool) (acc : List (List Char)) (comp : List Char) : List (List Char) :=
  if comp = [] ∨ comp = ['.'] then acc
  else if comp = ['.', '.'] then
    match acc with
    | top :: rest => if top = ['.', '.'] then comp :: acc else rest
    | [] => if rooted then [] else [comp]
  else comp :: acc

/-- The component stack produced by Go path.Clean on input p (in output
order). -/
def cleanStackOf (rooted : Bool) (p : List Char) : List (List Char) :=
  ((splitSlash p).foldl (cleanStep rooted) []).reverse

/-- Go path.Clean: lexical normalization of a slash-separated path.  A
path is rooted when it starts with the separator; the cleaned
components are rejoined, an empty result collapses to the root marker
for rooted paths and to "." otherwise. -/
def goPathCleanL (p : List Char) : List Char :=
  if p = [] then ['.']
  else if p.head? = some '/' then
    if joinSlash (cleanStackOf true p) = [] then ['/']
    else '/' :: joinSlash (cleanStackOf true p)
  else
    if joinSlash (cleanStackOf false p) = [] then ['.']
    else joinSlash (cleanStackOf false p)

/-- Go path.Join for two elements, as called by the proxy: empty
elements before the first non-empty one are skipped, the rest are
joined with a slash and the result is cleaned; Join of two empty
strings is the empty string. -/
def goPathJoinL (a b : List Char) : List Char :=
  if a = [] ∧ b = [] then []
  else if a = [] then goPathCleanL b
  else goPathCleanL (a ++ '/' :: b)

/-! ### The repository's joinPath (gcsproxy.go lines 152-161) -/

/-- joinPath from gcsproxy.go: remembers whether the request path ends
in a slash (Go: uriPath[len(uriPath)-1:] == "/"), joins root and path
with path.Join, and restores the trailing slash unless the join
collapsed to the root marker "/".  This is the total model; for the
empty uriPath the Go expression uriPath[len(uriPath)-1:] panics, which
joinPathCheckedL models. -/
def joinPathL (root uriPath : List Char) : List Char :=
  if uriPath.getLast? = some '/' ∧ goPathJoinL root uriPath ≠ ['/'] then
    goPathJoinL root uriPath ++ ['/']
  else goPathJoinL root uriPath

/-- joinPath with the Go slice-bounds check made explicit: the slice
uriPath[len(uriPath)-1:] requires len(uriPath)-1 to be in [0, len],
which fails exactly when uriPath is empty (slice bound out of range
panic, modelled as none). -/
def joinPathCheckedL (root uriPath : List Char) : Option (List Char) :=
  if (uriPath.length : Int) - 1 < 0 then none
  else some (joinPathL root uriPath)

/-- String-level joinPath, as used by ServeHTTP on the replaced root and
the request URL path. -/
def joinPath (root uriPath : String) : String :=
  ⟨joinPathL root.data uriPath.data⟩

/-- String-level checked joinPath (none models the Go panic). -/
def joinPathChecked (root uriPath : String) : Option String :=
  (joinPathCheckedL root.data uriPath.data).map (⟨·⟩)

/-- A key is a directory key when its last character is the path
separator. -/
def endsWithSlash (s : String) : Bool := s.data.getLast? == some '/'

/-- A well-formed path component: non-empty and separator-free.  Every
component kept by the cleaning pass satisfies this. -/
def CompOK (c : List Char) : Prop := c ≠ [] ∧ '/' ∉ c

/-- A plain path component: well-formed and not a dot component.  Every
component kept by the cleaning pass of a rooted path satisfies this. -/
def CompPlain (c : List Char) : Prop :=
  c ≠ [] ∧ c ≠ ['.'] ∧ c ≠ ['.', '.'] ∧ '/' ∉ c

/-! ### Go standard library: filepath.Match (unix separator)

fileHidden tries each hide pattern as a glob against the full key with
filepath.Match, discarding the error result.  Every Go error path of
Match reports matched = false, and pattern errors depend only on the
pattern text, so the model collapses errors into a failed match, which
preserves the matched value.  The recursions that are not structural in
Go (each loop iteration consumes at least one pattern character) take
explicit fuel, always called with more fuel than the pattern length. -/

/-- getEsc of Go filepath: reads one possibly backslash-escaped range
endpoint of a character class; none models ErrBadPattern (empty chunk,
a dash or closing bracket where an endpoint is expected, a trailing
backslash, or a class ending right after the endpoint). -/
def getEsc : List Char → Option (Char × List Char)
  | [] => none
  | c :: rest =>
    if c = '-' ∨ c = ']' then none
    else if c = '\\' then
      match rest with
      | [] => none
      | c2 :: rest2 => if rest2 = [] then none else some (c2, rest2)
    else if rest = [] then none else some (c, rest)

/-- The character-class loop of Go filepath.matchChunk: consumes range
specifications lo or lo-hi until the closing bracket, accumulating
whether r fell in some range; returns the match flag and the rest of
the chunk, none on a bad pattern. -/
def matchRanges (r : Char) : Nat → Bool → Nat → List Char → Option (Bool × List Char)
  | 0, _, _, _ => none
  | fuel + 1, m, nrange, chunk =>
    match chunk with
    | ']' :: rest =>
      if nrange > 0 then some (m, rest) else none
    | _ =>
      match getEsc chunk with
      | none => none
      | some (lo, c1) =>
        match c1 with
        | '-' :: c2 =>
          match getEsc c2 with
          | none => none
          | some (hi, c3) =>
            matchRanges r fuel (m || decide (lo ≤ r ∧ r ≤ hi)) (nrange + 1) c3
        | _ => matchRanges r fuel (m || decide (lo ≤ r ∧ r ≤ lo)) (nrange + 1) c1

/-- Go filepath.matchChunk: matches a star-free chunk against the head
of s; some rest on success, none on mismatch or bad pattern.  A
question mark matches any single non-separator character, a bracket
class matches per matchRanges (with a leading caret negating), a
backslash escapes the next pattern character, anything else matches
itself. -/
def matchChunk : Nat → List Char → List Char → Option (List Char)
  | 0, _, _ => none
  | _ + 1, [], s => some s
  | fuel + 1, '[' :: chunk1, s =>
    match s with
    | [] => none
    | r :: s1 =>
      match chunk1 with
      | '^' :: chunkn =>
        match matchRanges r (chunkn.length + 1) false 0 chunkn with
        | none => none
        | some (m, chunk3) => if m = true then none else matchChunk fuel chunk3 s1
      | _ =>
        match matchRanges r (chunk1.length + 1) false 0 chunk1 with
        | none => none
        | some (m, chunk3) => if m = false then none else matchChunk fuel chunk3 s1
  | fuel + 1, '?' :: chunk1, s =>
    match s with
    | [] => none
    | c :: s1 => if c = '/' then none else matchChunk fuel chunk1 s1
  | fuel + 1, '\\' :: chunk1, s =>
    match chunk1 with
    | [] => none
    | c :: chunk2 =>
      match s with
      | [] => none
      | c0 :: s1 => if c = c0 then matchChunk fuel chunk2 s1 else none
  | fuel + 1, c :: chunk1, s =>
    match s with
    | [] => none
    | c0 :: s1 => if c = c0 then matchChunk fuel chunk1 s1 else none

/-- The leading-star stripper of Go filepath.scanChunk. -/
def stripStars : List Char → Bool × List Char
  | [] => (false, [])
  | c :: rest =>
    if c = '*' then (true, (stripStars rest).2) else (false, c :: rest)

/-- The scan loop of Go filepath.scanChunk: after leading stars are
stripped, the chunk extends to the next star not inside a character
class; a backslash keeps the following character in the chunk. -/
def scanAux (inrange : Bool) : List Char → List Char × List Char
  | [] => ([], [])
  | c :: rest =>
    if c = '\\' then
      match rest with
      | c2 :: rest2 =>
        (c :: c2 :: (scanAux inrange rest2).1, (scanAux inrange rest2).2)
      | [] => ([c], [])
    else if c = '[' then (c :: (scanAux true rest).1, (scanAux true rest).2)
    else if c = ']' then (c :: (scanAux false rest).1, (scanAux false rest).2)
    else if c = '*' then
      if inrange then (c :: (scanAux inrange rest).1, (scanAux inrange rest).2)
      else ([], c :: rest)
    else (c :: (scanAux inrange rest).1, (scanAux inrange rest).2)

/-- Go filepath.scanChunk: splits the pattern into leading stars, the
next star-free chunk, and the remaining pattern. -/
def scanChunk (pat : List Char) : Bool × List Char × List Char :=
  ((stripStars pat).1, (scanAux false (stripStars pat).2).1,
    (scanAux false (stripStars pat).2).2)

/-- The star-skip loop of Go filepath.Match: retries the chunk at each
later offset of the name without crossing a separator; mc matches the
chunk, k continues with the rest of the pattern, restEmpty records
whether the pattern rest is empty (then a success leaving unmatched
name characters keeps scanning). -/
def starLoop (mc : List Char → Option (List Char)) (k : List Char → Bool)
    (restEmpty : Bool) : List Char → Bool
  | [] => false
  | c :: s =>
    if c = '/' then false
    else
      match mc s with
      | some t => if restEmpty ∧ t ≠ [] then starLoop mc k restEmpty s else k t
      | none => starLoop mc k restEmpty s

/-- The pattern loop of Go filepath.Match: scans one chunk, a trailing
all-star pattern matches any separator-free remainder, a chunk success
continues when it fits (name exhausted or pattern remaining), a star
lets the chunk slide along the name. -/
def goMatchF : Nat → List Char → List Char → Bool
  | 0, _, _ => false
  | _ + 1, [], name => name.isEmpty
  | fuel + 1, p0 :: prest, name =>
    if (scanChunk (p0 :: prest)).1 ∧ (scanChunk (p0 :: prest)).2.1 = [] then
      !(name.contains '/')
    else
      match matchChunk ((scanChunk (p0 :: prest)).2.1.length + 1)
          (scanChunk (p0 :: prest)).2.1 name with
      | some t =>
        if t = [] ∨ (scanChunk (p0 :: prest)).2.2 ≠ [] then
          goMatchF fuel (scanChunk (p0 :: prest)).2.2 t
        else if (scanChunk (p0 :: prest)).1 then
          starLoop (matchChunk ((scanChunk (p0 :: prest)).2.1.length + 1)
              (scanChunk (p0 :: prest)).2.1)
            (goMatchF fuel (scanChunk (p0 :: prest)).2.2)
            ((scanChunk (p0 :: prest)).2.2.isEmpty) name
        else false
      | none =>
        if (scanChunk (p0 :: prest)).1 then
          starLoop (matchChunk ((scanChunk (p0 :: prest)).2.1.length + 1)
              (scanChunk (p0 :: prest)).2.1)
            (goMatchF fuel (scanChunk (p0 :: prest)).2.2)
            ((scanChunk (p0 :: prest)).2.2.isEmpty) name
        else false

/-- Go filepath.Match with the error discarded, as fileHidden calls it;
the fuel exceeds the pattern length and every pattern-loop iteration
consumes at least one pattern character. -/
def goMatch (pat name : List Char) : Bool :=
  goMatchF (pat.length + 1) pat name

/-! ### fileHidden (gcsproxy.go lines 447-484) -/

/-- One hide pattern tried against the filename, mirroring the loop
body of fileHidden: a separator-free pattern is compared for equality
against every path component of the filename; a pattern containing the
separator hides exact prefixes whose boundary is a separator; in the
general case the pattern is tried as a glob against the full
filename. -/
def patternHides (filename : List Char) (h : List Char) : Bool :=
  (if h.contains '/' then
    h.isPrefixOf filename && ((filename.drop h.length).head? == some '/')
  else (splitSlash filename).contains h)
  || goMatch h filename

/-- fileHidden from gcsproxy.go: true when some pattern of the hide
list matches the filename. -/
def fileHidden (filename : String) (hide : List String) : Bool :=
  hide.any (fun h => patternHides filename.data h.data)

/-! ### The object store client (external collaborator) and the handlers

The GCS client is abstracted by its capability interface (spec section
6): per-key results for fetch (NewReader plus Attrs, merged into one
found / not-found / other-error outcome), write, delete and list.
Every handler returns its outcome together with the list of store
operations it performed, so that claims about storage never being
touched are statements about that list. -/

/-- Attributes of a stored object as the proxy observes them; the
generation is what conditional fetches and ETags use. -/
structure ObjAttrs where
  generation : Int
deriving DecidableEq

/-- Result of an unconditional fetch of an object. -/
inductive FetchRes
  | found (o : ObjAttrs)
  | notFound
  | err
deriving DecidableEq

/-- Whether a fetch found the object. -/
def FetchRes.isFound : FetchRes → Bool
  | .found _ => true
  | _ => false

/-- Result of a write or delete operation. -/
inductive OpRes
  | ok
  | notFound
  | err
deriving DecidableEq

/-- The object store client: per-key behaviour of fetch, write (with
the generation reported by the subsequent attributes call, none when
that call fails), delete and list. -/
structure Store where
  fetch : String → FetchRes
  putRes : String → OpRes
  putAttrs : String → Option Int
  delRes : String → OpRes
  listRes : String → OpRes

/-- Result of a conditional fetch: a generation-match condition on an
object with a different generation yields precondition-failed. -/
inductive CondFetchRes
  | found (o : ObjAttrs)
  | notFound
  | precondFailed
  | err
deriving DecidableEq

/-- The store's conditional fetch per the capability interface. -/
def condFetch (st : Store) (key : String) (cond : Option Int) : CondFetchRes :=
  match st.fetch key with
  | .found o =>
    match cond with
    | some g => if o.generation = g then .found o else .precondFailed
    | none => .found o
  | .notFound => .notFound
  | .err => .err

/-- One operation issued to the store client; read carries the
generation-match condition attached to it (none = unconditional). -/
inductive StoreOp
  | read (key : String) (cond : Option Int)
  | readAttrs (key : String)
  | write (key : String)
  | del (key : String)
  | list (key : String)
deriving DecidableEq

/-- HTTP methods dispatched by ServeHTTP. -/
inductive Method
  | get
  | put
  | delete
  | other
deriving DecidableEq

/-- The GcsProxy configuration fields the handlers consult. -/
structure Config where
  root : String
  indexNames : List String
  hide : List String
  enablePut : Bool
  enableDelete : Bool
  enableBrowse : Bool
  errorPages : Nat → Option String
  defaultErrorPage : String

/-- A handler outcome: nil error, or a caddy error with its status. -/
inductive HOut
  | ok
  | errStatus (code : Nat)
deriving DecidableEq

/-- PutHandler (gcsproxy.go lines 163-188): writes the request body to
the object unconditionally, then reads the attributes for the ETag
header (an attributes failure only skips the header).  The EnablePut
flag is never consulted: the write happens for every configuration.
Errors are converted as in convertToCaddyError: not-found to 404,
anything else to 500. -/
def putHandler (st : Store) (key : String) : HOut × List StoreOp :=
  match st.putRes key with
  | .ok => (.ok, [.write key, .readAttrs key])
  | .notFound => (.errStatus 404, [.write key])
  | .err => (.errStatus 500, [.write key])

/-- DeleteHandler (gcsproxy.go lines 190-204): a key ending in the
separator or a disabled delete capability yields 405
method-not-allowed before any store call; otherwise the object is
deleted and a store error converted (not-found 404, else 500). -/
def deleteHandler (cfg : Config) (st : Store) (key : String) : HOut × List StoreOp :=
  if endsWithSlash key = true ∨ cfg.enableDelete = false then
    (.errStatus 405, [])
  else
    match st.delRes key with
    | .ok => (.ok, [.del key])
    | .notFound => (.errStatus 404, [.del key])
    | .err => (.errStatus 500, [.del key])

/-- The key of an index candidate: path.Join of the directory key and
the index name (GetHandler line 381). -/
def indexKey (dir name : String) : String :=
  ⟨goPathJoinL dir.data name.data⟩

/-- The index-candidate loop of GetHandler (lines 379-405): each
configured index name is joined onto the directory key and fetched;
the first candidate that exists wins and stops the loop; a not-found
candidate silently continues, any other candidate error is logged and
likewise continues. -/
def resolveIndex (st : Store) (fullPath : String) :
    List String → Option (String × ObjAttrs) × List StoreOp
  | [] => (none, [])
  | name :: rest =>
    match st.fetch (indexKey fullPath name) with
    | .found o => (some (indexKey fullPath name, o), [.read (indexKey fullPath name) none])
    | _ =>
      ((resolveIndex st fullPath rest).1,
        .read (indexKey fullPath name) none :: (resolveIndex st fullPath rest).2)

/-- What a successful GET writes: an object streamed or a listing. -/
inductive GetServed
  | object (key : String) (o : ObjAttrs)
  | listing (key : String)
deriving DecidableEq

/-- A GET outcome: something served, or a caddy error status. -/
inductive GetResult
  | served (s : GetServed)
  | errStatus (code : Nat)
deriving DecidableEq

/-- BrowseHandler (gcsproxy.go lines 206-231): lists the prefix and
renders the page; an iterator error is converted. -/
def browseHandler (st : Store) (key : String) : GetResult × List StoreOp :=
  match st.listRes key with
  | .ok => (.served (.listing key), [.list key])
  | .notFound => (.errStatus 404, [.list key])
  | .err => (.errStatus 500, [.list key])

/-- GetHandler (gcsproxy.go lines 368-443): a hidden key is reported
as 404 before any store access; a directory key probes the index
candidates, serving the first hit, and otherwise falls through to
browsing (when enabled) or 403; a non-directory key is fetched, with
not-found mapped to 404 and other errors converted. -/
def getHandler (cfg : Config) (st : Store) (fullPath : String) :
    GetResult × List StoreOp :=
  if fileHidden fullPath cfg.hide then (.errStatus 404, [])
  else if endsWithSlash fullPath = true ∧ cfg.indexNames ≠ [] then
    match resolveIndex st fullPath cfg.indexNames with
    | (some (k, o), ops) => (.served (.object k o), ops)
    | (none, ops) =>
      if cfg.enableBrowse then
        ((browseHandler st fullPath).1, ops ++ (browseHandler st fullPath).2)
      else (.errStatus 403, ops)
  else if endsWithSlash fullPath = true then
    if cfg.enableBrowse then browseHandler st fullPath
    else (.errStatus 403, [])
  else
    match st.fetch fullPath with
    | .found o => (.served (.object fullPath o), [.read fullPath none])
    | .notFound => (.errStatus 404, [.read fullPath none])
    | .err => (.errStatus 500, [.read fullPath none])

/-! ### Error mapping and the error-page dispatcher -/

/-- strings.ToLower on the ASCII configuration keys. -/
def asciiToLower (s : String) : String :=
  ⟨s.data.map (fun c => if 'A' ≤ c ∧ c ≤ 'Z' then Char.ofNat (c.toNat + 32) else c)⟩

/-- The override target resolved by determineErrorsAction (gcsproxy.go
lines 353-366): the status-specific entry when present, else the
default error page when non-empty, else the empty key. -/
def resolveOverrideKey (cfg : Config) (statusCode : Nat) : String :=
  match cfg.errorPages statusCode with
  | some k => k
  | none => if cfg.defaultErrorPage ≠ "" then cfg.defaultErrorPage else ""

/-- determineErrorsAction: pass-through flag, error-page flag, and the
error-page key. -/
def determineErrorsAction (cfg : Config) (statusCode : Nat) : Bool × Bool × String :=
  if asciiToLower (resolveOverrideKey cfg statusCode) = "pass_through" then
    (true, false, "")
  else (false, resolveOverrideKey cfg statusCode ≠ "", resolveOverrideKey cfg statusCode)

/-- serveErrorPage (gcsproxy.go lines 269-285): fetches the error-page
object and streams it as the body; some key reports a successful
stream, none a failed fetch (which the caller logs and ignores). -/
def serveErrorPage (st : Store) (key : String) : Option String × List StoreOp :=
  match st.fetch key with
  | .found _ => (some key, [.read key none])
  | _ => (none, [.read key none])

/-- The observable outcome of one ServeHTTP call: what a successful
GET served, the status code written (if WriteHeader was called), the
error-page document successfully streamed, whether the response was
delegated to the next handler, the status of the error returned to
the caller, and the store operations performed. -/
structure HttpOutcome where
  served : Option GetServed
  statusWritten : Option Nat
  errorPageBody : Option String
  passedThrough : Bool
  returnedError : Option Nat
  ops : List StoreOp
deriving DecidableEq

/-- The error-processing tail of ServeHTTP (gcsproxy.go lines 309-351)
for a handler error with the given status: non-GET methods write the
status (when non-zero) and return the error; 304, 412 and 416 are
written as-is; otherwise the errors directive yields pass-through
(nothing written, response delegated) or the status is written and a
non-empty override key is fetched and streamed, a fetch failure being
logged and ignored. -/
def processError (cfg : Config) (st : Store) (m : Method) (statusCode : Nat) :
    HttpOutcome :=
  if m ≠ .get then
    ⟨none, if statusCode ≠ 0 then some statusCode else none, none, false,
      some statusCode, []⟩
  else if statusCode = 304 ∨ statusCode = 412 ∨ statusCode = 416 then
    ⟨none, some statusCode, none, false, some statusCode, []⟩
  else if (determineErrorsAction cfg statusCode).1 = true then
    ⟨none, none, none, true, none, []⟩
  else if (determineErrorsAction cfg statusCode).2.1 = true then
    ⟨none, if statusCode ≠ 0 then some statusCode else none,
      (serveErrorPage st (determineErrorsAction cfg statusCode).2.2).1, false,
      some statusCode,
      (serveErrorPage st (determineErrorsAction cfg statusCode).2.2).2⟩
  else
    ⟨none, if statusCode ≠ 0 then some statusCode else none, none, false,
      some statusCode, []⟩

/-- A successful handler outcome as an HttpOutcome. -/
def successOutcome (s : Option GetServed) (ops : List StoreOp) : HttpOutcome :=
  ⟨s, none, none, false, none, ops⟩

/-- An HttpOutcome with its operation list replaced. -/
def withOps (o : HttpOutcome) (ops : List StoreOp) : HttpOutcome :=
  ⟨o.served, o.statusWritten, o.errorPageBody, o.passedThrough, o.returnedError, ops⟩

/-- ServeHTTP (gcsproxy.go lines 288-351): resolves the key by joining
the replaced root with the request path, dispatches on the method
(anything but GET, PUT, DELETE is 405 method-not-allowed), and runs
the error-processing tail on a handler error. -/
def serveHTTP (cfg : Config) (st : Store) (m : Method) (urlPath : String) :
    HttpOutcome :=
  match m with
  | .get =>
    match getHandler cfg st (joinPath cfg.root urlPath) with
    | (.served s, ops) => successOutcome (some s) ops
    | (.errStatus s, ops) =>
      withOps (processError cfg st .get s) (ops ++ (processError cfg st .get s).ops)
  | .put =>
    match putHandler st (joinPath cfg.root urlPath) with
    | (.ok, ops) => successOutcome none ops
    | (.errStatus s, ops) =>
      withOps (processError cfg st .put s) (ops ++ (processError cfg st .put s).ops)
  | .delete =>
    match deleteHandler cfg st (joinPath cfg.root urlPath) with
    | (.ok, ops) => successOutcome none ops
    | (.errStatus s, ops) =>
      withOps (processError cfg st .delete s) (ops ++ (processError cfg st .delete s).ops)
  | .other => processError cfg st .other 405

/-! ### Conditional fetch helper getGcsObject (gcsproxy.go lines 135-150)

No caller in the repository invokes getGcsObject: the GET path fetches
unconditionally.  The function is embedded because claim C4 is about
its If-Match handling. -/

/-- Decimal digit run of Go strconv.ParseInt base 10: none models a
syntax error (no digits or a non-digit) or an int64 range error. -/
def goParseDigits (neg : Bool) (ds : List Char) : Option Int :=
  if ds = [] ∨ ¬ ds.all Char.isDigit then none
  else
    if neg then
      if (ds.foldl (fun a c => a * 10 + (c.toNat - '0'.toNat)) 0 : Int) ≤ 2 ^ 63 then
        some (-(ds.foldl (fun a c => a * 10 + (c.toNat - '0'.toNat)) 0 : Int))
      else none
    else
      if (ds.foldl (fun a c => a * 10 + (c.toNat - '0'.toNat)) 0 : Int) < 2 ^ 63 then
        some (ds.foldl (fun a c => a * 10 + (c.toNat - '0'.toNat)) 0 : Int)
      else none

/-- Go strconv.ParseInt(s, 10, 64): optional sign, decimal digits,
int64 range check. -/
def goParseInt64 : List Char → Option Int
  | '+' :: ds => goParseDigits false ds
  | '-' :: ds => goParseDigits true ds
  | ds => goParseDigits false ds

/-- The generation-match condition getGcsObject attaches from the
If-Match header value: for a value longer than 2 bytes, the first and
last byte are stripped and the remainder parsed as a decimal int64
(the stripped bytes are never checked to be quote characters); a parse
failure, a short value or an empty value attaches no condition. -/
def ifMatchCondition (ifMatch : String) : Option Int :=
  if ifMatch ≠ "" ∧ ifMatch.data.length > 2 then
    goParseInt64 (ifMatch.data.drop 1).dropLast
  else none

/-- getGcsObject: a read of the object carrying the If-Match
condition. -/
def getGcsObject (st : Store) (key : String) (ifMatch : String) :
    CondFetchRes × List StoreOp :=
  (condFetch st key (ifMatchCondition ifMatch),
    [.read key (ifMatchCondition ifMatch)])

/-- Modelled from the spec: an If-Match value "parsed as a quoted
decimal generation number" — an opening quote, a decimal int64, a
closing quote, nothing else.  Present only to compare the spec
sentence with the parse the code performs. -/
def specQuotedGeneration (s : String) : Option Int :=
  match s.data with
  | '"' :: rest =>
    if rest.getLast? = some '"' then goParseInt64 rest.dropLast else none
  | _ => none

end CaddyGcsProxy

namespace CaddyGcsProxy

/-! ### Lemmas about splitting, joining and cleaning paths -/

theorem splitSlash_ne_nil (l : List Char) : splitSlash l ≠ [] := by
  cases l with
  | nil => simp [splitSlash]
  | cons c rest =>
    by_cases h : c = '/' <;> simp [splitSlash, h]

theorem mem_splitSlash_no_slash (l : List Char) :
    ∀ c ∈ splitSlash l, '/' ∉ c := by
  induction l with
  | nil => intro c hc; simp [splitSlash] at hc; simp [hc]
  | cons a rest ih =>
    intro c hc
    by_cases h : a = '/'
    · simp [splitSlash, h] at hc
      rcases hc with hc | hc
      · simp [hc]
      · exact ih c hc
    · simp only [splitSlash, if_neg h] at hc
      rcases List.mem_cons.mp hc with hc | hc
      · subst hc
        intro hmem
        rcases List.mem_cons.mp hmem with h1 | h1
        · exact h h1.symm
        · obtain ⟨s, ss, hs⟩ : ∃ s ss, splitSlash rest = s :: ss := by
            cases hsp : splitSlash rest with
            | nil => exact absurd hsp (splitSlash_ne_nil rest)
            | cons s ss => exact ⟨s, ss, rfl⟩
          rw [hs] at h1
          exact ih s (by simp [hs]) h1
      · obtain ⟨s, ss, hs⟩ : ∃ s ss, splitSlash rest = s :: ss := by
          cases hsp : splitSlash rest with
          | nil => exact absurd hsp (splitSlash_ne_nil rest)
          | cons s ss => exact ⟨s, ss, rfl⟩
        rw [hs] at hc
        have hss : c ∈ ss := by simpa using hc
        exact ih c (by simp [hs, hss])

theorem splitSlash_append (a b : List Char) :
    splitSlash (a ++ '/' :: b) = splitSlash a ++ splitSlash b := by
  induction a with
  | nil => simp [splitSlash]
  | cons c rest ih =>
    by_cases h : c = '/'
    · simp [splitSlash, h, ih]
    · obtain ⟨s, ss, hs⟩ : ∃ s ss, splitSlash rest = s :: ss := by
        cases hsp : splitSlash rest with
        | nil => exact absurd hsp (splitSlash_ne_nil rest)
        | cons s ss => exact ⟨s, ss, rfl⟩
      simp [splitSlash, h, ih, hs]

theorem splitSlash_no_slash (x : List Char) (hx : '/' ∉ x) :
    splitSlash x = [x] := by
  induction x with
  | nil => simp [splitSlash]
  | cons c rest ih =>
    have hc : c ≠ '/' := by intro h; exact hx (by simp [h])
    have hrest : '/' ∉ rest := by intro h; exact hx (by simp [h])
    simp [splitSlash, hc, ih hrest]

theorem splitSlash_joinSlash (comps : List (List Char)) (hne : comps ≠ [])
    (hok : ∀ c ∈ comps, '/' ∉ c) :
    splitSlash (joinSlash comps) = comps := by
  induction comps with
  | nil => exact absurd rfl hne
  | cons x rest ih =>
    cases rest with
    | nil => simpa [joinSlash] using splitSlash_no_slash x (hok x (by simp))
    | cons y ys =>
      have : joinSlash (x :: y :: ys) = x ++ '/' :: joinSlash (y :: ys) := rfl
      rw [this, splitSlash_append, splitSlash_no_slash x (hok x (by simp)),
        ih (by simp) (fun c hc => hok c (by simp [hc]))]
      rfl

theorem cleanStep_ok (b : Bool) (acc : List (List Char)) (comp : List Char)
    (hacc : ∀ c ∈ acc, CompOK c) (hcomp : '/' ∉ comp) :
    ∀ c ∈ cleanStep b acc comp, CompOK c := by
  intro d hd
  have hdots : CompOK ['.', '.'] := ⟨by simp, by simp⟩
  unfold cleanStep at hd
  by_cases h1 : comp = [] ∨ comp = ['.']
  · rw [if_pos h1] at hd; exact hacc d hd
  · rw [if_neg h1] at hd
    by_cases h2 : comp = ['.', '.']
    · rw [if_pos h2] at hd
      cases acc with
      | nil =>
        simp only at hd
        cases b with
        | true => simp at hd
        | false =>
          have hdc : d = comp := by simpa using hd
          exact hdc ▸ h2 ▸ hdots
      | cons top rest2 =>
        simp only at hd
        by_cases ht : top = ['.', '.']
        · rw [if_pos ht] at hd
          rcases List.mem_cons.mp hd with h | h
          · exact h ▸ h2 ▸ hdots
          · exact hacc d h
        · rw [if_neg ht] at hd
          exact hacc d (by simp [hd])
    · rw [if_neg h2] at hd
      rcases List.mem_cons.mp hd with h | h
      · subst h
        exact ⟨fun hnil => h1 (Or.inl hnil), hcomp⟩
      · exact hacc d h

theorem foldl_cleanStep_ok (b : Bool) (comps : List (List Char)) :
    ∀ (acc : List (List Char)), (∀ c ∈ comps, '/' ∉ c) → (∀ c ∈ acc, CompOK c) →
    ∀ c ∈ comps.foldl (cleanStep b) acc, CompOK c := by
  induction comps with
  | nil => intro acc _ hacc c hc; exact hacc c hc
  | cons comp rest ih =>
    intro acc hcomps hacc c hc
    rw [List.foldl_cons] at hc
    exact ih (cleanStep b acc comp) (fun d hd => hcomps d (by simp [hd]))
      (cleanStep_ok b acc comp hacc (hcomps comp (by simp))) c hc

theorem cleanStep_plain (acc : List (List Char)) (comp : List Char)
    (hacc : ∀ c ∈ acc, CompPlain c) (hcomp : '/' ∉ comp) :
    ∀ c ∈ cleanStep true acc comp, CompPlain c := by
  intro d hd
  unfold cleanStep at hd
  by_cases h1 : comp = [] ∨ comp = ['.']
  · rw [if_pos h1] at hd; exact hacc d hd
  · rw [if_neg h1] at hd
    by_cases h2 : comp = ['.', '.']
    · rw [if_pos h2] at hd
      cases acc with
      | nil => simp at hd
      | cons top rest2 =>
        simp only at hd
        have ht : top ≠ ['.', '.'] := (hacc top (by simp)).2.2.1
        rw [if_neg ht] at hd
        exact hacc d (by simp [hd])
    · rw [if_neg h2] at hd
      rcases List.mem_cons.mp hd with h | h
      · subst h
        exact ⟨fun hnil => h1 (Or.inl hnil), fun hdot => h1 (Or.inr hdot), h2, hcomp⟩
      · exact hacc d h

theorem foldl_cleanStep_plain (comps : List (List Char)) :
    ∀ (acc : List (List Char)), (∀ c ∈ comps, '/' ∉ c) →
    (∀ c ∈ acc, CompPlain c) →
    ∀ c ∈ comps.foldl (cleanStep true) acc, CompPlain c := by
  induction comps with
  | nil => intro acc _ hacc c hc; exact hacc c hc
  | cons comp rest ih =>
    intro acc hcomps hacc c hc
    rw [List.foldl_cons] at hc
    exact ih (cleanStep true acc comp) (fun d hd => hcomps d (by simp [hd]))
      (cleanStep_plain acc comp hacc (hcomps comp (by simp))) c hc

theorem foldl_cleanStep_push (b : Bool) (comps : List (List Char)) :
    ∀ (acc : List (List Char)), (∀ c ∈ comps, CompPlain c) →
    comps.foldl (cleanStep b) acc = comps.reverse ++ acc := by
  induction comps with
  | nil => intro acc _; rfl
  | cons comp rest ih =>
    intro acc hcomps
    have hp := hcomps comp (by simp)
    have hstep : cleanStep b acc comp = comp :: acc := by
      unfold cleanStep
      rw [if_neg (by rintro (h | h); exacts [hp.1 h, hp.2.1 h]), if_neg hp.2.2.1]
    rw [List.foldl_cons, hstep, ih (comp :: acc) (fun d hd => hcomps d (by simp [hd]))]
    simp

theorem joinSlash_ok (stack : List (List Char)) (hne : stack ≠ [])
    (hok : ∀ c ∈ stack, CompOK c) :
    joinSlash stack ≠ [] ∧ (joinSlash stack).getLast? ≠ some '/' := by
  induction stack with
  | nil => exact absurd rfl hne
  | cons x rest ih =>
    cases rest with
    | nil =>
      have hx := hok x (by simp)
      refine ⟨by simpa [joinSlash] using hx.1, ?_⟩
      simp only [joinSlash]
      intro hlast
      obtain ⟨hxe, heq⟩ := List.mem_getLast?_eq_getLast (Option.mem_def.mpr hlast)
      exact hx.2 (heq ▸ List.getLast_mem hxe)
    | cons y ys =>
      have hj : joinSlash (x :: y :: ys) = x ++ '/' :: joinSlash (y :: ys) := rfl
      obtain ⟨ihne, ihlast⟩ := ih (by simp) (fun c hc => hok c (by simp [hc]))
      constructor
      · rw [hj]; simp
      · rw [hj, List.getLast?_append_cons]
        cases hjy : joinSlash (y :: ys) with
        | nil => exact absurd hjy ihne
        | cons a as =>
          rw [List.getLast?_cons_cons, ← hjy]
          exact ihlast

theorem joinSlash_head (x : List Char) (rest : List (List Char)) (hx : x ≠ []) :
    (joinSlash (x :: rest)).head? = x.head? := by
  cases rest with
  | nil => rfl
  | cons y ys =>
    have hj : joinSlash (x :: y :: ys) = x ++ '/' :: joinSlash (y :: ys) := rfl
    rw [hj]
    cases x with
    | nil => exact absurd rfl hx
    | cons a as => rfl

theorem cleanStackOf_ok (b : Bool) (p : List Char) :
    ∀ c ∈ cleanStackOf b p, CompOK c := by
  intro c hc
  rw [cleanStackOf, List.mem_reverse] at hc
  exact foldl_cleanStep_ok b (splitSlash p) [] (mem_splitSlash_no_slash p)
    (by simp) c hc

theorem cleanStackOf_plain (p : List Char) :
    ∀ c ∈ cleanStackOf true p, CompPlain c := by
  intro c hc
  rw [cleanStackOf, List.mem_reverse] at hc
  exact foldl_cleanStep_plain (splitSlash p) [] (mem_splitSlash_no_slash p)
    (by simp) c hc

theorem goPathCleanL_ne_nil (p : List Char) : goPathCleanL p ≠ [] := by
  unfold goPathCleanL
  by_cases hp : p = []
  · simp [hp]
  · rw [if_neg hp]
    by_cases hr : p.head? = some '/'
    · rw [if_pos hr]; split_ifs <;> simp
    · rw [if_neg hr]; split_ifs <;> simp_all

theorem goPathCleanL_getLast_slash (p : List Char)
    (h : (goPathCleanL p).getLast? = some '/') : goPathCleanL p = ['/'] := by
  unfold goPathCleanL at h ⊢
  by_cases hp : p = []
  · rw [if_pos hp] at h; simp at h
  · rw [if_neg hp] at h ⊢
    by_cases hr : p.head? = some '/'
    · rw [if_pos hr] at h ⊢
      by_cases hj : joinSlash (cleanStackOf true p) = []
      · simp [hj]
      · exfalso
        have hstack : cleanStackOf true p ≠ [] := by
          intro hs; exact hj (by simp [hs, joinSlash])
        obtain ⟨_, hlast⟩ := joinSlash_ok (cleanStackOf true p) hstack
          (cleanStackOf_ok true p)
        rw [if_neg hj] at h
        cases hjy : joinSlash (cleanStackOf true p) with
        | nil => exact hj hjy
        | cons a as =>
          rw [hjy, List.getLast?_cons_cons, ← hjy] at h
          exact hlast h
    · rw [if_neg hr] at h
      by_cases hj : joinSlash (cleanStackOf false p) = []
      · simp [hj] at h
      · exfalso
        have hstack : cleanStackOf false p ≠ [] := by
          intro hs; exact hj (by simp [hs, joinSlash])
        obtain ⟨_, hlast⟩ := joinSlash_ok (cleanStackOf false p) hstack
          (cleanStackOf_ok false p)
        rw [if_neg hj] at h
        exact hlast h

theorem goPathCleanL_nonrooted (p : List Char) (hp : p ≠ [])
    (hr : p.head? ≠ some '/') :
    (goPathCleanL p).head? ≠ some '/' ∧ goPathCleanL p ≠ ['/'] := by
  have hmain : (goPathCleanL p).head? ≠ some '/' := by
    unfold goPathCleanL
    rw [if_neg hp, if_neg hr]
    by_cases hj : joinSlash (cleanStackOf false p) = []
    · simp [hj]
    · rw [if_neg hj]
      have hstack : cleanStackOf false p ≠ [] := by
        intro hs; exact hj (by simp [hs, joinSlash])
      cases hst : cleanStackOf false p with
      | nil => exact absurd hst hstack
      | cons x rest =>
        have hx : CompOK x := cleanStackOf_ok false p x (by simp [hst])
        rw [joinSlash_head x rest hx.1]
        cases hxc : x with
        | nil => exact absurd hxc hx.1
        | cons a as =>
          simp only [List.head?_cons]
          intro heq
          have : a = '/' := by simpa using heq
          exact hx.2 (by simp [hxc, this])
  refine ⟨hmain, fun heq => hmain (by rw [heq]; rfl)⟩

theorem goPathCleanL_rooted_struct (p : List Char) (hp : p ≠ [])
    (hr : p.head? = some '/') :
    goPathCleanL p = ['/'] ∨
    (cleanStackOf true p ≠ [] ∧
      goPathCleanL p = '/' :: joinSlash (cleanStackOf true p)) := by
  unfold goPathCleanL
  rw [if_neg hp, if_pos hr]
  by_cases hj : joinSlash (cleanStackOf true p) = []
  · left; simp [hj]
  · right
    have hstack : cleanStackOf true p ≠ [] := by
      intro hs; exact hj (by simp [hs, joinSlash])
    exact ⟨hstack, by simp [hj]⟩

theorem head?_append_ne_nil (r x : List Char) (hr : r ≠ []) :
    (r ++ x).head? = r.head? := by
  cases r with
  | nil => exact absurd rfl hr
  | cons a rs => rfl

theorem splitSlash_slash_cons (l : List Char) :
    splitSlash ('/' :: l) = [] :: splitSlash l := by
  simp [splitSlash]

theorem foldl_cleanStep_nil_cons (b : Bool) (acc : List (List Char))
    (s : List (List Char)) (hs : ∀ c ∈ s, CompPlain c) :
    (([] : List Char) :: s).foldl (cleanStep b) acc = s.reverse ++ acc := by
  rw [List.foldl_cons]
  have hnil : cleanStep b acc [] = acc := by
    unfold cleanStep; rw [if_pos (Or.inl rfl)]
  rw [hnil, foldl_cleanStep_push b s acc hs]

theorem goPathCleanL_rooted_ne_root (q : List Char) (hq : q ≠ [])
    (hqh : q.head? = some '/') (hstack : cleanStackOf true q ≠ []) :
    goPathCleanL q ≠ ['/'] := by
  obtain ⟨hjne, _⟩ := joinSlash_ok _ hstack (cleanStackOf_ok true q)
  unfold goPathCleanL
  rw [if_neg hq, if_pos hqh, if_neg hjne]
  simp [hjne]

theorem goPathJoinL_eq_clean (r p : List Char) (hp : p ≠ []) :
    goPathJoinL r p = goPathCleanL (if r = [] then p else r ++ '/' :: p) := by
  unfold goPathJoinL
  rw [if_neg (fun h => hp h.2)]
  by_cases hr : r = []
  · rw [if_pos hr, if_pos hr]
  · rw [if_neg hr, if_neg hr]

theorem goPathJoinL_getLast_slash (r p : List Char) (hp : p ≠ [])
    (h : (goPathJoinL r p).getLast? = some '/') : goPathJoinL r p = ['/'] := by
  rw [goPathJoinL_eq_clean r p hp] at h ⊢
  exact goPathCleanL_getLast_slash _ h

theorem goPathJoinL_ne_nil (r p : List Char) (hp : p ≠ []) :
    goPathJoinL r p ≠ [] := by
  rw [goPathJoinL_eq_clean r p hp]
  exact goPathCleanL_ne_nil _

theorem joinPathL_ne_nil (r p : List Char) (hp : p ≠ []) : joinPathL r p ≠ [] := by
  unfold joinPathL
  split_ifs with h
  · simp
  · exact goPathJoinL_ne_nil r p hp

theorem joinPathL_rejoin_ne_root (r p : List Char) (hp : p ≠ [])
    (hk : (joinPathL r p).getLast? ≠ some '/') :
    goPathJoinL r (joinPathL r p) ≠ ['/'] := by
  have hkeq : joinPathL r p = goPathJoinL r p := by
    unfold joinPathL at hk ⊢
    split_ifs at hk ⊢ with h
    · exact absurd (List.getLast?_concat _) hk
    · rfl
  rw [hkeq] at hk ⊢
  have hkne : goPathJoinL r p ≠ [] := goPathJoinL_ne_nil r p hp
  rw [goPathJoinL_eq_clean r p hp] at hk hkne ⊢
  rw [goPathJoinL_eq_clean r _ hkne]
  by_cases hr : r = []
  · subst hr
    rw [if_pos rfl] at hk hkne ⊢
    rw [if_pos rfl]
    by_cases hph : p.head? = some '/'
    · rcases goPathCleanL_rooted_struct p hp hph with hroot | ⟨hstack, hstruct⟩
      · rw [hroot] at hk; simp at hk
      · have hplain := cleanStackOf_plain p
        have hsplit : splitSlash (goPathCleanL p) = [] :: cleanStackOf true p := by
          rw [hstruct, splitSlash_slash_cons,
            splitSlash_joinSlash _ hstack (fun c hc => (hplain c hc).2.2.2)]
        refine goPathCleanL_rooted_ne_root _ hkne (by rw [hstruct]; rfl) ?_
        rw [cleanStackOf, hsplit, foldl_cleanStep_nil_cons true [] _ hplain]
        simp [hstack]
    · exact (goPathCleanL_nonrooted _ hkne
        (goPathCleanL_nonrooted p hp hph).1).2
  · rw [if_neg hr] at hk hkne ⊢
    rw [if_neg hr]
    have hinph : (r ++ '/' :: p).head? = r.head? := head?_append_ne_nil r _ hr
    have hinpne : r ++ '/' :: p ≠ [] := by simp [hr]
    have hinp2h : (r ++ '/' :: goPathCleanL (r ++ '/' :: p)).head? = r.head? :=
      head?_append_ne_nil r _ hr
    have hinp2ne : r ++ '/' :: goPathCleanL (r ++ '/' :: p) ≠ [] := by simp [hr]
    by_cases hrh : r.head? = some '/'
    · rcases goPathCleanL_rooted_struct _ hinpne (by rw [hinph]; exact hrh)
        with hroot | ⟨hstack, hstruct⟩
      · rw [hroot] at hk; simp at hk
      · have hplain := cleanStackOf_plain (r ++ '/' :: p)
        have hsplit : splitSlash (goPathCleanL (r ++ '/' :: p)) =
            [] :: cleanStackOf true (r ++ '/' :: p) := by
          rw [hstruct, splitSlash_slash_cons,
            splitSlash_joinSlash _ hstack (fun c hc => (hplain c hc).2.2.2)]
        refine goPathCleanL_rooted_ne_root _ hinp2ne
          (by rw [hinp2h]; exact hrh) ?_
        rw [cleanStackOf, splitSlash_append, hsplit, List.foldl_append,
          foldl_cleanStep_nil_cons true _ _ hplain]
        simp [hstack]
    · exact (goPathCleanL_nonrooted _ hinp2ne (by rw [hinp2h]; exact hrh)).2

end CaddyGcsProxy

namespace CaddyGcsProxy

/-! ### C10: joinPath is total exactly on non-empty request paths -/

/-- Claim C10: joinPath is total only under the precondition that the
request path is non-empty: for every root and non-empty uriPath it
returns a key without faulting, while for the empty uriPath the
unguarded slice uriPath[len(uriPath)-1:] faults, so the entry point
implicitly requires incoming URL paths to be non-empty. -/
theorem joinPath_total_iff_nonempty (root uriPath : String) (h : uriPath ≠ "") :
    joinPathChecked root uriPath = some (joinPath root uriPath) ∧
    joinPathChecked root "" = none := by
  constructor
  · have hd : uriPath.data ≠ [] := by
      intro hnil
      exact h (by cases uriPath; simp_all)
    have hlen : 0 < uriPath.data.length := List.length_pos.mpr hd
    simp only [joinPathChecked, joinPathCheckedL, joinPath]
    rw [if_neg (by omega)]
    rfl
  · rfl

/-- Witness for C10 at root "a", uriPath "b/". -/
theorem joinPath_total_iff_nonempty_witness :
    joinPathChecked "a" "b/" = some (joinPath "a" "b/") ∧
    joinPathChecked "a" "" = none :=
  joinPath_total_iff_nonempty "a" "b/" (by decide)

/-! ### C9: joinPath is round-trip stable on the directory flag -/

theorem joinPathL_last_of_dir (r p : List Char)
    (h : p.getLast? = some '/') : (joinPathL r p).getLast? = some '/' := by
  unfold joinPathL
  split_ifs with hb
  · exact List.getLast?_concat _
  · push_neg at hb
    rw [hb h]
    rfl

/-- Claim C9: path resolution is round-trip stable on the directory
flag: for every root and non-empty path p, the resolved key ends in the
separator exactly when p does, except that a result collapsing to the
root marker "/" keeps the marker; and re-applying joinPath with the
same root to an already-resolved key does not alter that key's
directory flag. -/
theorem joinPath_dirflag_stable (root p : String) (hp : p ≠ "") :
    (endsWithSlash p = true → endsWithSlash (joinPath root p) = true) ∧
    (joinPath root p ≠ "/" → endsWithSlash (joinPath root p) = endsWithSlash p) ∧
    endsWithSlash (joinPath root (joinPath root p)) = endsWithSlash (joinPath root p) := by
  have hbool : ∀ x y : Bool, (x = true ↔ y = true) → x = y := by decide
  have hpd : p.data ≠ [] := by
    intro hd; exact hp (by cases p; simp_all)
  have c1 : p.data.getLast? = some '/' →
      (joinPathL root.data p.data).getLast? = some '/' :=
    joinPathL_last_of_dir root.data p.data
  have c2 : joinPathL root.data p.data ≠ ['/'] →
      ((joinPathL root.data p.data).getLast? = some '/' ↔
        p.data.getLast? = some '/') := by
    intro hne
    constructor
    · intro hk
      by_contra hpe
      have hkeq : joinPathL root.data p.data = goPathJoinL root.data p.data := by
        unfold joinPathL
        rw [if_neg (fun h => hpe h.1)]
      rw [hkeq] at hk hne
      exact hne (goPathJoinL_getLast_slash root.data p.data hpd hk)
    · exact c1
  have c3 : (joinPathL root.data (joinPathL root.data p.data)).getLast? = some '/' ↔
      (joinPathL root.data p.data).getLast? = some '/' := by
    constructor
    · intro hk2
      by_contra hk
      have hkeq : joinPathL root.data (joinPathL root.data p.data) =
          goPathJoinL root.data (joinPathL root.data p.data) := by
        unfold joinPathL
        rw [if_neg (fun h => hk h.1)]
      rw [hkeq] at hk2
      have hkne : joinPathL root.data p.data ≠ [] := joinPathL_ne_nil _ _ hpd
      exact joinPathL_rejoin_ne_root root.data p.data hpd hk
        (goPathJoinL_getLast_slash _ _ hkne hk2)
    · exact joinPathL_last_of_dir root.data (joinPathL root.data p.data)
  refine ⟨?_, ?_, ?_⟩
  · intro h
    have h1 : p.data.getLast? = some '/' := by
      simpa [endsWithSlash] using h
    simpa [endsWithSlash, joinPath] using c1 h1
  · intro hne
    have hne' : joinPathL root.data p.data ≠ ['/'] := by
      intro h
      exact hne (congrArg String.mk h)
    apply hbool
    simpa [endsWithSlash, joinPath] using c2 hne'
  · apply hbool
    simpa [endsWithSlash, joinPath] using c3

/-! ### C3: the three matching rules of fileHidden -/

/-- Counterexample for C3: with patterns ["foo.txt", "_*"], the key
"/_draft" is NOT hidden, contrary to the claim.  The separator-free
pattern "_*" is compared with the components "" and "_draft" by
equality only (no glob against components), and as a glob against the
full key it fails because the star does not match the leading
separator. -/
theorem fileHidden_draft_counterexample :
    fileHidden "/_draft" ["foo.txt", "_*"] = false := by decide

/-- Claim C3 (amended): fileHidden(k, P) is true iff some pattern in P
matches k by component equality (a separator-free pattern equal to
some path component), by separator-bounded prefix (a
separator-containing pattern that prefixes k with a separator
immediately after), or by glob match against the full key; with
patterns ["foo.txt", "_*"], key "/foo.txt" is hidden, key "/foobar" is
not hidden, and key "/_draft" is NOT hidden (none of the three rules
matches it: the glob fails on the leading separator and the component
comparison is plain equality). -/
theorem fileHidden_three_rules :
    (∀ (filename : String) (hide : List String),
      fileHidden filename hide = true ↔
      ∃ h ∈ hide,
        (h.data.contains '/' = false ∧ h.data ∈ splitSlash filename.data) ∨
        (h.data.contains '/' = true ∧ h.data <+: filename.data ∧
          (filename.data.drop h.data.length).head? = some '/') ∨
        goMatch h.data filename.data = true) ∧
    fileHidden "/foo.txt" ["foo.txt", "_*"] = true ∧
    fileHidden "/foobar" ["foo.txt", "_*"] = false ∧
    fileHidden "/_draft" ["foo.txt", "_*"] = false := by
  refine ⟨?_, by decide, by decide, by decide⟩
  intro filename hide
  rw [fileHidden, List.any_eq_true]
  constructor
  · rintro ⟨h, hmem, hpat⟩
    refine ⟨h, hmem, ?_⟩
    rw [patternHides, Bool.or_eq_true] at hpat
    rcases hpat with hpat | hpat
    · by_cases hc : h.data.contains '/'
      · rw [if_pos hc, Bool.and_eq_true] at hpat
        exact Or.inr (Or.inl ⟨hc, List.isPrefixOf_iff_prefix.mp hpat.1,
          by simpa using hpat.2⟩)
      · rw [if_neg hc] at hpat
        exact Or.inl ⟨by simpa using hc, by simpa using hpat⟩
    · exact Or.inr (Or.inr hpat)
  · rintro ⟨h, hmem, hpat⟩
    refine ⟨h, hmem, ?_⟩
    rw [patternHides, Bool.or_eq_true]
    rcases hpat with ⟨hc, hcomp⟩ | ⟨hc, hpre, hsep⟩ | hglob
    · exact Or.inl (by
        rw [if_neg (by rw [hc]; exact Bool.false_ne_true)]
        simpa using hcomp)
    · refine Or.inl ?_
      rw [if_pos hc, Bool.and_eq_true]
      exact ⟨List.isPrefixOf_iff_prefix.mpr hpre, by simpa using hsep⟩
    · exact Or.inr hglob

/-! ### C1: PUT never consults EnablePut (code bug) -/

/-- Claim C1 concerns a code bug: PutHandler never consults EnablePut.
For every store and key the handler issues the object write, and at
the failing input (enablePut = false, PUT of path "/x" against a store
accepting the write) the request succeeds with the write and the
attributes read performed, where the claim demands a not-allowed
status with no store call. -/
theorem putHandler_ignores_enablePut :
    (∀ (st : Store) (key : String), StoreOp.write key ∈ (putHandler st key).2) ∧
    serveHTTP ⟨"", [], [], false, false, false, fun _ => none, ""⟩
      ⟨fun _ => .notFound, fun _ => .ok, fun _ => some 3, fun _ => .ok, fun _ => .ok⟩
      .put "/x" =
      successOutcome none [.write "/x", .readAttrs "/x"] := by
  constructor
  · intro st key
    cases h : st.putRes key <;> simp [putHandler, h]
  · decide

/-! ### C8: DELETE rejections happen before any store access -/

/-- Claim C8: a DELETE whose resolved key ends in the path separator
yields 405 regardless of enableDelete, a DELETE with enableDelete
false yields 405 regardless of the key, and in both cases the store
delete is never invoked (no store operation at all). -/
theorem deleteHandler_rejections (cfg : Config) (st : Store) (key : String) :
    (endsWithSlash key = true → deleteHandler cfg st key = (.errStatus 405, [])) ∧
    (cfg.enableDelete = false → deleteHandler cfg st key = (.errStatus 405, [])) := by
  constructor
  · intro h; unfold deleteHandler; rw [if_pos (Or.inl h)]
  · intro h; unfold deleteHandler; rw [if_pos (Or.inr h)]

/-- Witness for C8: a directory key with deletes enabled, and a plain
key with deletes disabled. -/
theorem deleteHandler_rejections_witness :
    deleteHandler ⟨"", [], [], false, true, false, fun _ => none, ""⟩
      ⟨fun _ => .notFound, fun _ => .ok, fun _ => none, fun _ => .ok, fun _ => .ok⟩
      "/a/" = (.errStatus 405, []) ∧
    deleteHandler ⟨"", [], [], false, false, false, fun _ => none, ""⟩
      ⟨fun _ => .notFound, fun _ => .ok, fun _ => none, fun _ => .ok, fun _ => .ok⟩
      "/b" = (.errStatus 405, []) :=
  ⟨(deleteHandler_rejections _ _ "/a/").1 (by decide),
   (deleteHandler_rejections _ _ "/b").2 rfl⟩

/-! ### C2: the visibility check lives inside the GET handler only -/

/-- Counterexample for C2: a DELETE of the hidden key "/secret"
(pattern "secret", deletes enabled) is not terminated with 404 and
does touch storage: the delete handler performs no visibility check,
the store delete runs and the request succeeds. -/
theorem hidden_delete_counterexample :
    fileHidden "/secret" ["secret"] = true ∧
    serveHTTP ⟨"", [], ["secret"], false, true, false, fun _ => none, ""⟩
      ⟨fun _ => .notFound, fun _ => .ok, fun _ => none, fun _ => .ok, fun _ => .ok⟩
      .delete "/secret" =
      successOutcome none [.del "/secret"] :=
  ⟨by decide, by decide⟩

/-- Claim C2 (amended): the visibility check happens only for GET,
inside the GET handler after method dispatch.  A hidden resolved key
on GET terminates with the error value 404 and no store operation —
the same status a genuine store not-found produces, so the two are
indistinguishable to the caller — while PUT and DELETE dispatch never
consult the hide patterns (their outcome is invariant under replacing
the hide list). -/
theorem visibility_check_get_only (cfg : Config) (st : Store) (key urlPath : String)
    (h : fileHidden key cfg.hide = true) :
    getHandler cfg st key = (.errStatus 404, []) ∧
    (∀ (st' : Store) (k' : String), st'.fetch k' = .notFound →
      endsWithSlash k' = false → fileHidden k' cfg.hide = false →
      (getHandler cfg st' k').1 = .errStatus 404) ∧
    (∀ hide' : List String,
      serveHTTP cfg st .put urlPath =
        serveHTTP ⟨cfg.root, cfg.indexNames, hide', cfg.enablePut, cfg.enableDelete,
          cfg.enableBrowse, cfg.errorPages, cfg.defaultErrorPage⟩ st .put urlPath ∧
      serveHTTP cfg st .delete urlPath =
        serveHTTP ⟨cfg.root, cfg.indexNames, hide', cfg.enablePut, cfg.enableDelete,
          cfg.enableBrowse, cfg.errorPages, cfg.defaultErrorPage⟩ st .delete urlPath) := by
  refine ⟨?_, ?_, ?_⟩
  · unfold getHandler
    rw [if_pos h]
  · intro st' k' hfetch hdir hvis
    unfold getHandler
    rw [if_neg (by rw [hvis]; exact Bool.false_ne_true)]
    rw [if_neg (by rw [hdir]; simp), if_neg (by rw [hdir]; simp)]
    rw [hfetch]
  · intro hide'
    exact ⟨rfl, rfl⟩

/-- Witness for C2 at the hidden key "/x/secret" with pattern
"secret". -/
theorem visibility_check_get_only_witness :
    getHandler ⟨"", [], ["secret"], false, true, false, fun _ => none, ""⟩
      ⟨fun _ => .notFound, fun _ => .ok, fun _ => none, fun _ => .ok, fun _ => .ok⟩
      "/x/secret" = (.errStatus 404, []) :=
  (visibility_check_get_only _ _ "/x/secret" "/x/secret" (by decide)).1

/-! ### C7: index candidates are probed strictly in configured order -/

/-- Claim C7: for a directory GET, index candidates are probed in the
configured order of indexNames; the first candidate that exists is
served and the iteration short-circuits (the candidates after it are
irrelevant); candidates that are not found — by not-found or by any
other error — continue to the next; if no candidate resolves, the
request falls through to a listing when browsing is enabled and to 403
Forbidden otherwise; with names ["index.html", "index.txt"] and a
directory holding only index.txt, index.txt is served. -/
theorem index_resolution_order (st : Store) (dir : String) :
    (∀ (pre post : List String) (n : String) (o : ObjAttrs),
      (∀ m ∈ pre, (st.fetch (indexKey dir m)).isFound = false) →
      st.fetch (indexKey dir n) = .found o →
      (resolveIndex st dir (pre ++ n :: post)).1 = some (indexKey dir n, o)) ∧
    (∀ names : List String,
      (∀ m ∈ names, (st.fetch (indexKey dir m)).isFound = false) →
      (resolveIndex st dir names).1 = none) ∧
    (∀ cfg : Config,
      fileHidden dir cfg.hide = false → endsWithSlash dir = true →
      (∀ m ∈ cfg.indexNames, (st.fetch (indexKey dir m)).isFound = false) →
      (cfg.enableBrowse = false → (getHandler cfg st dir).1 = .errStatus 403) ∧
      (cfg.enableBrowse = true → (getHandler cfg st dir).1 = (browseHandler st dir).1)) ∧
    (getHandler ⟨"", ["index.html", "index.txt"], [], false, false, false,
        fun _ => none, ""⟩
      ⟨fun k => if k = "/d/index.txt" then .found ⟨7⟩ else .notFound,
        fun _ => .ok, fun _ => none, fun _ => .ok, fun _ => .ok⟩ "/d/").1 =
      .served (.object "/d/index.txt" ⟨7⟩) := by
  have hfirst : ∀ (pre post : List String) (n : String) (o : ObjAttrs),
      (∀ m ∈ pre, (st.fetch (indexKey dir m)).isFound = false) →
      st.fetch (indexKey dir n) = .found o →
      (resolveIndex st dir (pre ++ n :: post)).1 = some (indexKey dir n, o) := by
    intro pre
    induction pre with
    | nil =>
      intro post n o _ hn
      simp [resolveIndex, hn]
    | cons m pre ih =>
      intro post n o hmiss hn
      have hm := hmiss m (by simp)
      cases hf : st.fetch (indexKey dir m) with
      | found o2 => rw [hf] at hm; simp [FetchRes.isFound] at hm
      | notFound =>
        simp only [List.cons_append, resolveIndex, hf]
        exact ih post n o (fun d hd => hmiss d (by simp [hd])) hn
      | err =>
        simp only [List.cons_append, resolveIndex, hf]
        exact ih post n o (fun d hd => hmiss d (by simp [hd])) hn
  have hnone : ∀ names : List String,
      (∀ m ∈ names, (st.fetch (indexKey dir m)).isFound = false) →
      (resolveIndex st dir names).1 = none := by
    intro names
    induction names with
    | nil => intro _; rfl
    | cons m rest ih =>
      intro hmiss
      have hm := hmiss m (by simp)
      cases hf : st.fetch (indexKey dir m) with
      | found o2 => rw [hf] at hm; simp [FetchRes.isFound] at hm
      | notFound =>
        simp only [resolveIndex, hf]
        exact ih (fun d hd => hmiss d (by simp [hd]))
      | err =>
        simp only [resolveIndex, hf]
        exact ih (fun d hd => hmiss d (by simp [hd]))
  refine ⟨hfirst, hnone, ?_, by decide⟩
  intro cfg hvis hdir hmiss
  by_cases hnames : cfg.indexNames = []
  · constructor
    · intro hbrowse
      unfold getHandler
      rw [if_neg (by rw [hvis]; exact Bool.false_ne_true),
        if_neg (by simp [hnames]), if_pos hdir, if_neg (by rw [hbrowse]; simp)]
    · intro hbrowse
      unfold getHandler
      rw [if_neg (by rw [hvis]; exact Bool.false_ne_true),
        if_neg (by simp [hnames]), if_pos hdir, if_pos (by rw [hbrowse])]
  · have hri := hnone cfg.indexNames hmiss
    constructor
    · intro hbrowse
      unfold getHandler
      rw [if_neg (by rw [hvis]; exact Bool.false_ne_true),
        if_pos ⟨hdir, hnames⟩]
      rcases hpair : resolveIndex st dir cfg.indexNames with ⟨fst, ops⟩
      rw [hpair] at hri
      simp only at hri
      subst hri
      simp [hbrowse]
    · intro hbrowse
      unfold getHandler
      rw [if_neg (by rw [hvis]; exact Bool.false_ne_true),
        if_pos ⟨hdir, hnames⟩]
      rcases hpair : resolveIndex st dir cfg.indexNames with ⟨fst, ops⟩
      rw [hpair] at hri
      simp only at hri
      subst hri
      simp [hbrowse]

/-- Witness for C7: the first-success conjunct applied with
pre = ["index.html"], n = "index.txt" against a store holding only
the index.txt candidate under "/d/". -/
theorem index_resolution_order_witness :
    (resolveIndex
      ⟨fun k => if k = "/d/index.txt" then .found ⟨7⟩ else .notFound,
        fun _ => .ok, fun _ => none, fun _ => .ok, fun _ => .ok⟩
      "/d/" (["index.html"] ++ "index.txt" :: [])).1 =
      some (indexKey "/d/" "index.txt", ⟨7⟩) :=
  (index_resolution_order _ "/d/").1 ["index.html"] [] "index.txt" ⟨7⟩
    (by decide) (by decide)

/-! ### C5 and C6: the error-page dispatcher -/

theorem determineErrorsAction_pass (cfg : Config) (s : Nat)
    (h : asciiToLower (resolveOverrideKey cfg s) = "pass_through") :
    determineErrorsAction cfg s = (true, false, "") := by
  unfold determineErrorsAction
  rw [if_pos h]

theorem determineErrorsAction_nopass (cfg : Config) (s : Nat)
    (h : asciiToLower (resolveOverrideKey cfg s) ≠ "pass_through") :
    determineErrorsAction cfg s =
      (false, decide (resolveOverrideKey cfg s ≠ ""), resolveOverrideKey cfg s) := by
  unfold determineErrorsAction
  rw [if_neg h]

/-- Claim C6: error-page override processing is never entered for the
statuses 304, 412 and 416 (these are written as-is) and never for
non-GET methods (their status is written immediately and the error
returned): in both cases nothing is delegated, no error page is
fetched, no extra store operation happens, and the original error is
returned. -/
theorem error_override_bypass (cfg : Config) (st : Store) (m : Method)
    (s : Nat) (hs : s ≠ 0) :
    (m ≠ .get → processError cfg st m s = ⟨none, some s, none, false, some s, []⟩) ∧
    (s = 304 ∨ s = 412 ∨ s = 416 →
      processError cfg st m s = ⟨none, some s, none, false, some s, []⟩) := by
  constructor
  · intro hm
    unfold processError
    rw [if_pos hm, if_pos hs]
  · intro hcode
    by_cases hm : m = .get
    · subst hm
      unfold processError
      rw [if_neg (by simp), if_pos hcode]
    · unfold processError
      rw [if_pos hm, if_pos hs]

/-- Witness for C6: a PUT failure with status 500, and a GET failure
with status 412, against a store that would otherwise serve an error
page for every status. -/
theorem error_override_bypass_witness :
    processError ⟨"", [], [], false, false, false, fun _ => some "e.html", ""⟩
      ⟨fun _ => .found ⟨1⟩, fun _ => .ok, fun _ => none, fun _ => .ok, fun _ => .ok⟩
      .put 500 = ⟨none, some 500, none, false, some 500, []⟩ ∧
    processError ⟨"", [], [], false, false, false, fun _ => some "e.html", ""⟩
      ⟨fun _ => .found ⟨1⟩, fun _ => .ok, fun _ => none, fun _ => .ok, fun _ => .ok⟩
      .get 412 = ⟨none, some 412, none, false, some 412, []⟩ :=
  ⟨(error_override_bypass _ _ .put 500 (by decide)).1 (by decide),
   (error_override_bypass _ _ .get 412 (by decide)).2 (by decide)⟩

/-- Claim C5: for a failed GET with status outside the terminal-bypass
set, the override target resolves to errorPages[status] when present,
else the default error page when non-empty, else the empty key; a
target equal to pass_through (case-insensitively) delegates the whole
response to the next handler with no status written by the gateway;
any other target writes the original status, a non-empty target is
fetched and streamed as the body, and a failed fetch of the override
document leaves the written status and the returned error unchanged. -/
theorem error_page_dispatch (cfg : Config) (st : Store) (s : Nat)
    (hbypass : ¬(s = 304 ∨ s = 412 ∨ s = 416)) (hs : s ≠ 0) :
    (match cfg.errorPages s with
      | some k => k
      | none => if cfg.defaultErrorPage ≠ "" then cfg.defaultErrorPage else "") =
      resolveOverrideKey cfg s ∧
    (asciiToLower (resolveOverrideKey cfg s) = "pass_through" →
      processError cfg st .get s = ⟨none, none, none, true, none, []⟩) ∧
    (asciiToLower (resolveOverrideKey cfg s) ≠ "pass_through" →
      resolveOverrideKey cfg s ≠ "" →
      processError cfg st .get s =
        ⟨none, some s,
          if (st.fetch (resolveOverrideKey cfg s)).isFound = true then
            some (resolveOverrideKey cfg s)
          else none,
          false, some s, [.read (resolveOverrideKey cfg s) none]⟩) ∧
    (asciiToLower (resolveOverrideKey cfg s) ≠ "pass_through" →
      resolveOverrideKey cfg s = "" →
      processError cfg st .get s = ⟨none, some s, none, false, some s, []⟩) := by
  refine ⟨rfl, ?_, ?_, ?_⟩
  · intro hpass
    unfold processError
    rw [if_neg (by simp), if_neg hbypass,
      if_pos (by rw [determineErrorsAction_pass cfg s hpass])]
  · intro hnp hne
    unfold processError
    rw [if_neg (by simp), if_neg hbypass,
      if_neg (by rw [determineErrorsAction_nopass cfg s hnp]; simp),
      if_pos (by rw [determineErrorsAction_nopass cfg s hnp]; simpa using hne)]
    rw [determineErrorsAction_nopass cfg s hnp]
    cases hf : st.fetch (resolveOverrideKey cfg s) with
    | found o => simp [serveErrorPage, hf, FetchRes.isFound, hs]
    | notFound => simp [serveErrorPage, hf, FetchRes.isFound, hs]
    | err => simp [serveErrorPage, hf, FetchRes.isFound, hs]
  · intro hnp hempty
    unfold processError
    rw [if_neg (by simp), if_neg hbypass,
      if_neg (by rw [determineErrorsAction_nopass cfg s hnp]; simp),
      if_neg (by rw [determineErrorsAction_nopass cfg s hnp]; simp [hempty]),
      if_pos hs]

/-- Witness for C5: status 404 with errorPages = {404 -> "404.html"}
against a store that has the page, and status 403 falling back to no
override with an empty default. -/
theorem error_page_dispatch_witness :
    processError ⟨"", [], [], false, false, false,
        fun n => if n = 404 then some "404.html" else none, ""⟩
      ⟨fun k => if k = "404.html" then .found ⟨1⟩ else .notFound,
        fun _ => .ok, fun _ => none, fun _ => .ok, fun _ => .ok⟩
      .get 404 =
      ⟨none, some 404,
        if ((fun k => if k = "404.html" then FetchRes.found ⟨1⟩ else .notFound)
            (resolveOverrideKey ⟨"", [], [], false, false, false,
              fun n => if n = 404 then some "404.html" else none, ""⟩ 404)).isFound = true
        then some (resolveOverrideKey ⟨"", [], [], false, false, false,
          fun n => if n = 404 then some "404.html" else none, ""⟩ 404)
        else none,
        false, some 404,
        [.read (resolveOverrideKey ⟨"", [], [], false, false, false,
          fun n => if n = 404 then some "404.html" else none, ""⟩ 404) none]⟩ :=
  (error_page_dispatch _ _ 404 (by decide) (by decide)).2.2.1 (by decide) (by decide)

/-! ### C4: If-Match and conditional GET -/

theorem resolveIndex_ops_unconditional (st : Store) (dir : String)
    (names : List String) (k : String) (g : Int) :
    StoreOp.read k (some g) ∉ (resolveIndex st dir names).2 := by
  induction names with
  | nil => simp [resolveIndex]
  | cons m rest ih =>
    cases hf : st.fetch (indexKey dir m) with
    | found o => simp [resolveIndex, hf]
    | notFound =>
      simp only [resolveIndex, hf, List.mem_cons]
      rintro (h | h)
      · exact absurd h (by simp)
      · exact ih h
    | err =>
      simp only [resolveIndex, hf, List.mem_cons]
      rintro (h | h)
      · exact absurd h (by simp)
      · exact ih h

/-- Counterexample for C4: conditional fetching is not honored on GET.
With the object "/a" stored at generation 5 and a request carrying
If-Match with the quoted generation 5, the spec parse yields 5, but
the GET path issues exactly one unconditional read and no conditional
read at all (getGcsObject, the only code attaching the condition, has
no caller).  Independently, the helper does not parse quoted values:
for the unquoted If-Match value 12345 it attaches generation 234 (the
middle bytes) instead of ignoring the malformed value. -/
theorem conditional_get_counterexample :
    specQuotedGeneration "\"5\"" = some 5 ∧
    (getHandler ⟨"", [], [], false, false, false, fun _ => none, ""⟩
      ⟨fun k => if k = "/a" then .found ⟨5⟩ else .notFound,
        fun _ => .ok, fun _ => none, fun _ => .ok, fun _ => .ok⟩ "/a").2 =
      [.read "/a" none] ∧
    StoreOp.read "/a" (some 5) ∉
      (getHandler ⟨"", [], [], false, false, false, fun _ => none, ""⟩
        ⟨fun k => if k = "/a" then .found ⟨5⟩ else .notFound,
          fun _ => .ok, fun _ => none, fun _ => .ok, fun _ => .ok⟩ "/a").2 ∧
    ifMatchCondition "12345" = some 234 ∧ specQuotedGeneration "12345" = none :=
  ⟨by decide, by decide, by decide, by decide, by decide⟩

/-- Claim C4 (amended): the GET path fetches unconditionally — every
read it issues carries no condition, whatever the request headers, so
no GET ever fails from If-Match parsing.  The helper getGcsObject
(never called) would attach ifMatchCondition: for a header value
longer than two bytes the first and last byte are stripped (without
checking that they are quotes) and the middle parsed as a decimal
int64; a failed parse attaches no condition, making the fetch
unconditional; a quoted generation matching the stored object's
generation yields a successful conditional fetch. -/
theorem conditional_get_unconditional (cfg : Config) (st : Store)
    (key hdr : String) :
    (∀ (k : String) (g : Int), StoreOp.read k (some g) ∉ (getHandler cfg st key).2) ∧
    (ifMatchCondition hdr = none →
      (getGcsObject st key hdr).1 = condFetch st key none) ∧
    (∀ (o : ObjAttrs) (g : Int), st.fetch key = .found o → o.generation = g →
      ifMatchCondition hdr = some g → (getGcsObject st key hdr).1 = .found o) := by
  refine ⟨?_, ?_, ?_⟩
  · intro k g
    unfold getHandler
    by_cases hvis : fileHidden key cfg.hide
    · rw [if_pos hvis]; simp
    · rw [if_neg hvis]
      by_cases hdir : endsWithSlash key = true ∧ cfg.indexNames ≠ []
      · rw [if_pos hdir]
        rcases hpair : resolveIndex st key cfg.indexNames with ⟨fst, ops⟩
        have hops : StoreOp.read k (some g) ∉ ops := by
          have := resolveIndex_ops_unconditional st key cfg.indexNames k g
          rw [hpair] at this
          exact this
        cases fst with
        | some x =>
          rcases x with ⟨kk, o⟩
          simpa using hops
        | none =>
          cases hl : st.listRes key <;> by_cases hb : cfg.enableBrowse <;>
            simp [hb, browseHandler, hl, hops]
      · rw [if_neg hdir]
        by_cases hdir2 : endsWithSlash key = true
        · rw [if_pos hdir2]
          by_cases hb : cfg.enableBrowse
          · rw [if_pos hb]
            cases hl : st.listRes key <;> simp [browseHandler, hl]
          · rw [if_neg hb]; simp
        · rw [if_neg hdir2]
          cases hf : st.fetch key <;> simp [hf]
  · intro h
    unfold getGcsObject
    rw [h]
  · intro o g hfetch hgen hcond
    unfold getGcsObject condFetch
    rw [hfetch, hcond]
    simp [hgen]

/-- Witness for C4 (amended) at the store holding "/a" at generation 5
and the quoted If-Match value 5: the conditional fetch of the unused
helper succeeds on the matching generation. -/
theorem conditional_get_unconditional_witness :
    (getGcsObject
      ⟨fun k => if k = "/a" then .found ⟨5⟩ else .notFound,
        fun _ => .ok, fun _ => none, fun _ => .ok, fun _ => .ok⟩
      "/a" "\"5\"").1 = .found ⟨5⟩ :=
  (conditional_get_unconditional
    ⟨"", [], [], false, false, false, fun _ => none, ""⟩
    ⟨fun k => if k = "/a" then .found ⟨5⟩ else .notFound,
      fun _ => .ok, fun _ => none, fun _ => .ok, fun _ => .ok⟩
    "/a" "\"5\"").2.2 ⟨5⟩ 5 (by decide) rfl (by decide)

/-- Witness for C9 at root "/r", path "a/../b/" (a directory request
whose normalization keeps the trailing separator). -/
theorem joinPath_dirflag_stable_witness :
    (endsWithSlash "a/../b/" = true →
      endsWithSlash (joinPath "/r" "a/../b/") = true) ∧
    (joinPath "/r" "a/../b/" ≠ "/" →
      endsWithSlash (joinPath "/r" "a/../b/") = endsWithSlash "a/../b/") ∧
    endsWithSlash (joinPath "/r" (joinPath "/r" "a/../b/")) =
      endsWithSlash (joinPath "/r" "a/../b/") :=
  joinPath_dirflag_stable "/r" "a/../b/" (by decide)

end CaddyGcsProxy
